import Mathlib

/-!
Verification of the guitar-tuner signal-processing core.

Shallow embedding of the pipeline:
* `cumulativeMeanNormalizedDifference`, `detectPitch`, `parabolicInterpolation`
  (source `src/audio/pitch-detector` section of `octave-correction.ts`):
  time-domain samples are modelled as exact rationals (`ℚ`), arrays as `List ℚ`.
  The two source `for`/`while` loops of the absolute-threshold step are embedded
  as structurally recursive functions `findTau` / `walkMin` with a fuel argument;
  the fuel passed at every call site (`cm.length`) dominates the number of
  iterations the source loop can make, so the embedding never exhausts it.
* `correctOctaveErrors` (source `octave-correction.ts`).
* `frequencyToNote` (source `tuner/note-mapping.ts`): `Math.log2` is modelled by
  `Real.logb 2`, `Math.round` by `round : ℝ → ℤ` (both are `⌊x + 1/2⌋`).
* `PitchSmoother` (source `smoother.ts`, the second — stability-spread — class
  definition, the one the spec canonicalizes): state record plus a pure
  `process : State → PitchResult → ℚ → State × Option SmoothedResult`.
  JavaScript `Array.prototype.sort` on numbers is modelled by an ascending
  comparison sort (`List.insertionSort`).

Division by zero follows Lean's `x / 0 = 0` convention; in JavaScript those
spots produce `NaN`/`Infinity`, and every place where it matters is either
unreachable on the inputs the claims quantify over or noted at the definition.
-/

/-- `PitchResult {frequency, clarity}` from `tuner/types.ts`. -/
structure PitchResult where
  frequency : ℚ
  clarity : ℚ
deriving DecidableEq

/-- `NoteInfo` from `tuner/types.ts`; `cents` is a real number
(`(midiFloat - midiRounded) * 100` with `midiFloat` log-valued). -/
structure NoteInfo where
  note : String
  octave : ℤ
  cents : ℝ
  frequency : ℚ

/- ------------------------------------------------------------------ -/
/- Pitch detector (YIN), from the `pitch-detector` part of
   `src/audio/octave-correction.ts`.                                   -/
/- ------------------------------------------------------------------ -/

/-- The difference function `d(tau) = Σ_{i<halfLen} (x[i] - x[i+tau])²`
(inner loop of `cumulativeMeanNormalizedDifference`). Out-of-range reads
return 0; the source never reads out of range (`i + tau ≤ 2*halfLen - 2`). -/
def diffAt (buffer : List ℚ) (halfLen tau : ℕ) : ℚ :=
  ((List.range halfLen).map
    (fun i => (buffer.getD i 0 - buffer.getD (i + tau) 0) ^ 2)).sum

/-- `cumulativeMeanNormalizedDifference(buffer, halfLen)`:
`cmnd[0] = 1`; for `tau ≥ 1`, `cmnd[tau] = diff[tau] / (runningSum / tau)`
where `runningSum = Σ_{j=1}^{tau} diff[j]`. -/
def cumulativeMeanNormalizedDifference (buffer : List ℚ) (halfLen : ℕ) : List ℚ :=
  (List.range halfLen).map (fun tau =>
    if tau = 0 then 1
    else
      let runningSum := ((List.range tau).map (fun j => diffAt buffer halfLen (j + 1))).sum
      diffAt buffer halfLen tau / (runningSum / tau))

/-- The CMND array a detection call computes for a frame: length
`halfLen = ⌊buffer.length / 2⌋`. -/
def cmndOf (buffer : List ℚ) : List ℚ :=
  cumulativeMeanNormalizedDifference buffer (buffer.length / 2)

/-- The inner `while` of step 3 of `detectPitch`: starting at `tau`, walk
forward while `cmnd[tau+1] < cmnd[tau]` (and `tau + 1 < halfLen`), landing on
the local minimum. Structural recursion on a fuel argument. -/
def walkMin (cm : List ℚ) : ℕ → ℕ → ℕ
  | 0, tau => tau
  | fuel + 1, tau =>
    if tau + 1 < cm.length ∧ cm.getD (tau + 1) 0 < cm.getD tau 0 then
      walkMin cm fuel (tau + 1)
    else tau

/-- The outer `for` of step 3 of `detectPitch`: scan `tau` upward; at the
first `tau` with `cmnd[tau] < threshold`, walk to the local minimum and
return it; if the scan reaches `halfLen`, return `none`. -/
def findTau (cm : List ℚ) (threshold : ℚ) : ℕ → ℕ → Option ℕ
  | 0, _ => none
  | fuel + 1, tau =>
    if tau < cm.length then
      if cm.getD tau 0 < threshold then some (walkMin cm cm.length tau)
      else findTau cm threshold fuel (tau + 1)
    else none

/-- `parabolicInterpolation(cmnd, tau)` from the source: sub-sample
refinement; the adjustment is discarded (the plain `tau` is returned)
when `tau` is at an array edge or when `|adjustment| > 1`. -/
def parabolicInterpolation (cm : List ℚ) (tau : ℕ) : ℚ :=
  if tau < 1 ∨ cm.length - 1 ≤ tau then (tau : ℚ)
  else
    let s0 := cm.getD (tau - 1) 0
    let s1 := cm.getD tau 0
    let s2 := cm.getD (tau + 1) 0
    let adjustment := (s0 - s2) / (2 * (s0 - 2 * s1 + s2))
    if 1 < |adjustment| then (tau : ℚ) else (tau : ℚ) + adjustment

/-- `DEFAULT_THRESHOLD = 0.15`. -/
def DEFAULT_THRESHOLD : ℚ := 15 / 100

/-- `detectPitch(buffer, sampleRate, threshold)` (YIN). -/
def detectPitch (buffer : List ℚ) (sampleRate : ℚ)
    (threshold : ℚ := DEFAULT_THRESHOLD) : Option PitchResult :=
  let halfLen := buffer.length / 2
  let cm := cumulativeMeanNormalizedDifference buffer halfLen
  match findTau cm threshold cm.length 2 with
  | none => none
  | some tauEstimate =>
    some { frequency := sampleRate / parabolicInterpolation cm tauEstimate
           clarity := 1 - cm.getD tauEstimate 0 }

/- ------------------------------------------------------------------ -/
/- Octave corrector, from `src/audio/octave-correction.ts`.            -/
/- ------------------------------------------------------------------ -/

/-- `GUITAR_MIN_HZ = 75`. -/
def GUITAR_MIN_HZ : ℚ := 75

/-- `GUITAR_MAX_HZ = 1400`. -/
def GUITAR_MAX_HZ : ℚ := 1400

/-- `correctOctaveErrors(result, buffer, sampleRate)`: recompute the CMND
array, and if both `lagT = round(sampleRate/f)` and `lag2T = round(2·sampleRate/f)`
are valid indices with `cmnd[lag2T] < cmnd[lagT] * 0.5`, halve the frequency;
then drop the result when the (possibly halved) frequency is outside
`[GUITAR_MIN_HZ, GUITAR_MAX_HZ]`. The `0 ≤ lagT`/`0 ≤ lag2T` guards model the
JavaScript behaviour that a negative array index reads `undefined`, making the
`<` comparison false. -/
def correctOctaveErrors (result : PitchResult) (buffer : List ℚ)
    (sampleRate : ℚ) : Option PitchResult :=
  let halfLen := buffer.length / 2
  let cm := cumulativeMeanNormalizedDifference buffer halfLen
  let lagT : ℤ := round (sampleRate / result.frequency)
  let lag2T : ℤ := round (sampleRate / (result.frequency / 2))
  let frequency :=
    if 0 ≤ lagT ∧ 0 ≤ lag2T ∧ lagT < (halfLen : ℤ) ∧ lag2T < (halfLen : ℤ) ∧
        cm.getD lag2T.toNat 0 < cm.getD lagT.toNat 0 * (1 / 2) then
      result.frequency / 2
    else result.frequency
  if frequency < GUITAR_MIN_HZ ∨ GUITAR_MAX_HZ < frequency then none
  else some { frequency := frequency, clarity := result.clarity }

/- ------------------------------------------------------------------ -/
/- Note mapping, from `src/tuner/note-mapping.ts`.                     -/
/- ------------------------------------------------------------------ -/

/-- The 12 fixed pitch-class names. -/
def NOTE_NAMES : List String :=
  ["C", "C♯", "D", "D♯", "E", "F", "F♯", "G", "G♯", "A", "A♯", "B"]

/-- `A4_FREQUENCY = 440`. -/
def A4_FREQUENCY : ℚ := 440

/-- `A4_MIDI = 69`. -/
def A4_MIDI : ℤ := 69

/-- Fallback for the (unreachable) out-of-range note-name lookup. -/
def NOTE_FALLBACK : String := ""

/-- `midiFloat = 12 * log2(hz / 440) + 69`. -/
noncomputable def midiFloat (hz : ℚ) : ℝ :=
  12 * Real.logb 2 ((hz : ℝ) / (A4_FREQUENCY : ℝ)) + (A4_MIDI : ℝ)

/-- `frequencyToNote(hz)` from `note-mapping.ts`. JavaScript `%` is the
truncated remainder (`Int.tmod`); `Math.floor(midiRounded / 12)` is the floor
of the exact quotient. -/
noncomputable def frequencyToNote (hz : ℚ) : NoteInfo :=
  let midiRounded : ℤ := round (midiFloat hz)
  let cents : ℝ := (midiFloat hz - (midiRounded : ℝ)) * 100
  let note := NOTE_NAMES.getD ((midiRounded.tmod 12 + 12).tmod 12).toNat NOTE_FALLBACK
  let octave : ℤ := ⌊(midiRounded : ℚ) / 12⌋ - 1
  { note := note, octave := octave, cents := cents, frequency := hz }

/- ------------------------------------------------------------------ -/
/- Temporal stabilizer, from `src/audio/smoother.ts` (the second class
   definition in that file: the stability-spread design with
   `EMA_ALPHA = 0.1`, which the spec canonicalizes).                   -/
/- ------------------------------------------------------------------ -/

/-- `MEDIAN_WINDOW = 5`. -/
def MEDIAN_WINDOW : ℕ := 5

/-- `EMA_ALPHA = 0.1`. -/
def EMA_ALPHA : ℚ := 1 / 10

/-- `MIN_CLARITY = 0.85`. -/
def MIN_CLARITY : ℚ := 85 / 100

/-- `STABILITY_WINDOW = 5`. -/
def STABILITY_WINDOW : ℕ := 5

/-- `STABILITY_SPREAD_CENTS = 30`. -/
def STABILITY_SPREAD_CENTS : ℝ := 30

/-- `NOTE_CHANGE_CENTS = 150`. -/
def NOTE_CHANGE_CENTS : ℝ := 150

/-- `HYSTERESIS_MS = 100`. -/
def HYSTERESIS_MS : ℚ := 100

/-- `SmoothedResult` from `smoother.ts`. -/
structure SmoothedResult where
  frequency : ℚ
  clarity : ℚ
  note : String
  octave : ℤ
  cents : ℝ

/-- The private mutable fields of class `PitchSmoother`. -/
structure SmootherState where
  medianBuffer : List ℚ
  emaFrequency : Option ℚ
  stabilityBuffer : List ℚ
  currentNote : Option String
  currentOctave : Option ℤ
  pendingNote : Option String
  pendingOctave : Option ℤ
  pendingNoteTimestamp : Option ℚ
deriving DecidableEq

namespace PitchSmoother

/-- The construction-time state (every field's initializer in the class). -/
def initState : SmootherState :=
  { medianBuffer := []
    emaFrequency := none
    stabilityBuffer := []
    currentNote := none
    currentOctave := none
    pendingNote := none
    pendingOctave := none
    pendingNoteTimestamp := none }

/-- `reset()`: every field back to its construction-time value. -/
def reset (s : SmootherState) : SmootherState :=
  { s with
    medianBuffer := []
    emaFrequency := none
    stabilityBuffer := []
    currentNote := none
    currentOctave := none
    pendingNote := none
    pendingOctave := none
    pendingNoteTimestamp := none }

/-- The free function `median(values)`: sort ascending, take the middle
element (odd length) or the mean of the two middle elements (even length).
JavaScript `sort((a, b) => a - b)` is an ascending comparison sort. -/
def median (values : List ℚ) : ℚ :=
  let sorted := values.insertionSort (· ≤ ·)
  let mid := sorted.length / 2
  if sorted.length % 2 ≠ 0 then sorted.getD mid 0
  else (sorted.getD (mid - 1) 0 + sorted.getD mid 0) / 2

/-- `Math.min(...buf)` over a nonempty buffer. -/
def listMin (l : List ℚ) : ℚ := l.foldl min (l.headD 0)

/-- `Math.max(...buf)` over a nonempty buffer. -/
def listMax (l : List ℚ) : ℚ := l.foldl max (l.headD 0)

/-- `stabilitySpreadCents()`: `1200 * log2(max / min)` over the buffer. -/
noncomputable def stabilitySpreadCents (buf : List ℚ) : ℝ :=
  1200 * Real.logb 2 ((listMax buf : ℝ) / (listMin buf : ℝ))

/-- `applyHysteresis(newNote, newOctave, now)`: returns the updated state
together with the displayed `(note, octave)` pair. -/
def applyHysteresis (s : SmootherState) (newNote : String) (newOctave : ℤ)
    (now : ℚ) : SmootherState × String × ℤ :=
  match s.currentNote, s.currentOctave with
  | some cn, some co =>
    if cn = newNote ∧ co = newOctave then
      ({ s with pendingNote := none, pendingOctave := none,
                pendingNoteTimestamp := none }, cn, co)
    else if s.pendingNote ≠ some newNote ∨ s.pendingOctave ≠ some newOctave then
      ({ s with pendingNote := some newNote, pendingOctave := some newOctave,
                pendingNoteTimestamp := some now }, cn, co)
    else
      match s.pendingNoteTimestamp with
      | some ts =>
        if HYSTERESIS_MS ≤ now - ts then
          ({ s with currentNote := some newNote, currentOctave := some newOctave,
                    pendingNote := none, pendingOctave := none,
                    pendingNoteTimestamp := none }, newNote, newOctave)
        else (s, cn, co)
      | none => (s, cn, co)
  | _, _ =>
    ({ s with currentNote := some newNote, currentOctave := some newOctave,
              pendingNote := none, pendingOctave := none,
              pendingNoteTimestamp := none }, newNote, newOctave)

open Classical in
/-- `process(result, now)`: the per-call state machine, returning the updated
state and the optional `SmoothedResult`. -/
noncomputable def process (s : SmootherState) (result : PitchResult) (now : ℚ) :
    SmootherState × Option SmoothedResult :=
  if result.clarity < MIN_CLARITY then
    ({ s with stabilityBuffer := [] }, none)
  else
    let s1 :=
      match s.emaFrequency with
      | some ema =>
        if NOTE_CHANGE_CENTS <
            |1200 * Real.logb 2 ((result.frequency : ℝ) / (ema : ℝ))| then
          reset s
        else s
      | none => s
    let sb0 := s1.stabilityBuffer ++ [result.frequency]
    let sb := if STABILITY_WINDOW < sb0.length then sb0.tail else sb0
    let s2 := { s1 with stabilityBuffer := sb }
    if s2.stabilityBuffer.length < STABILITY_WINDOW then (s2, none)
    else if STABILITY_SPREAD_CENTS < stabilitySpreadCents s2.stabilityBuffer then
      (s2, none)
    else
      let mb0 := s2.medianBuffer ++ [result.frequency]
      let mb := if MEDIAN_WINDOW < mb0.length then mb0.tail else mb0
      let medianFreq := median mb
      let ema :=
        match s2.emaFrequency with
        | none => medianFreq
        | some e => EMA_ALPHA * medianFreq + (1 - EMA_ALPHA) * e
      let s3 := { s2 with medianBuffer := mb, emaFrequency := some ema }
      let noteInfo := frequencyToNote ema
      let hr := applyHysteresis s3 noteInfo.note noteInfo.octave now
      (hr.1, some { frequency := ema
                    clarity := result.clarity
                    note := hr.2.1
                    octave := hr.2.2
                    cents := noteInfo.cents })

/-- Driving `process` over a timestamped input sequence, collecting the
per-call outputs. -/
noncomputable def processSeq (s : SmootherState) :
    List (PitchResult × ℚ) → SmootherState × List (Option SmoothedResult)
  | [] => (s, [])
  | (r, t) :: rest =>
    let st := process s r t
    let further := processSeq st.1 rest
    (further.1, st.2 :: further.2)

/-- Driving `applyHysteresis` over a sequence of mapped `(note, octave, now)`
readings, collecting the displayed pairs. -/
def hystSteps (s : SmootherState) :
    List (String × ℤ × ℚ) → SmootherState × List (String × ℤ)
  | [] => (s, [])
  | (n, o, t) :: rest =>
    let st := applyHysteresis s n o t
    let further := hystSteps st.1 rest
    (further.1, st.2 :: further.2)

end PitchSmoother

/- ------------------------------------------------------------------ -/
/- Concrete frames used to instantiate the theorems.                   -/
/- ------------------------------------------------------------------ -/

/-- A frame of period 2 (length 8, `halfLen = 4`): `cmnd = [1, 1, 0, 3/2]`. -/
def bufPeriod2 : List ℚ := [0, 1, 0, 1, 0, 1, 0, 1]

/-- A frame of period 4 (length 12, `halfLen = 6`):
`cmnd = [1, 1, 4/3, 3/4, 0, 1]`. -/
def bufPeriod4 : List ℚ := [0, 1, 0, -1, 0, 1, 0, -1, 0, 1, 0, -1]

/-- An aperiodic frame (length 8): `cmnd = [1, 1, 1, 1]`, never below the
default threshold. -/
def bufSpike : List ℚ := [1, 0, 0, 0, 0, 0, 0, 0]

/- ------------------------------------------------------------------ -/
/- Theorems.                                                           -/
/- ------------------------------------------------------------------ -/

namespace PitchSmoother

/-- Claim C6: for every Stabilizer state and every `PitchResult` with
`clarity < 0.85`, `process` returns nothing and clears the stability
buffer (leaving the rest of the state unchanged). -/
theorem claim_C6_clarity_gate (s : SmootherState) (r : PitchResult) (now : ℚ)
    (h : r.clarity < 85 / 100) :
    process s r now = ({ s with stabilityBuffer := [] }, none) := by
  rw [process, if_pos (by rw [MIN_CLARITY]; exact h)]

/-- Witness for C6 at a concrete low-clarity reading. -/
theorem claim_C6_clarity_gate_witness :
    process initState ⟨440, 1 / 2⟩ 0 =
      ({ initState with stabilityBuffer := [] }, none) :=
  claim_C6_clarity_gate initState ⟨440, 1 / 2⟩ 0 (by norm_num)

/-- Claim C9: `reset()` followed by replaying any input sequence produces
outputs (and final state) identical to a freshly constructed Stabilizer
processing the same sequence. -/
theorem claim_C9_reset_replay (s : SmootherState)
    (inputs : List (PitchResult × ℚ)) :
    processSeq (reset s) inputs = processSeq initState inputs := rfl

/-- Counterexample to claim C7 as stated: a call whose `PitchResult` fails the
clarity gate reaches neither the jump check nor `reset()`, even though an EMA
exists and the incoming frequency is more than 150 cents away: the old EMA
survives the call, while any mid-call full reset would have left it `none`. -/
theorem claim_C7_counterexample :
    ({ initState with emaFrequency := some 440 } : SmootherState).emaFrequency
        = some 440 ∧
    (150 : ℝ) <
      |1200 * Real.logb 2 (((880 : ℚ) : ℝ) / ((440 : ℚ) : ℝ))| ∧
    (process { initState with emaFrequency := some 440 }
        ⟨880, 1 / 2⟩ 0).1.emaFrequency = some 440 ∧
    (reset { initState with emaFrequency := some 440 }).emaFrequency = none := by
  refine ⟨rfl, ?_, ?_, rfl⟩
  · have h2 : (((880 : ℚ) : ℝ) / ((440 : ℚ) : ℝ)) = 2 := by push_cast; norm_num
    rw [h2, Real.logb_self_eq_one (by norm_num)]
    norm_num
  · rw [process, if_pos (by norm_num [MIN_CLARITY])]

/-- Claim C7 (amended): on every `process` call that passes the clarity gate
(`clarity ≥ 0.85`), if an EMA exists and
`|1200 · log2(result.frequency / ema)| > 150`, the call behaves exactly as a
full reset followed by the rest of the same call — i.e. it is
indistinguishable from running `process` on a freshly constructed state. -/
theorem claim_C7_jump_reset (s : SmootherState) (r : PitchResult) (now : ℚ)
    (e : ℚ) (hclar : 85 / 100 ≤ r.clarity) (hema : s.emaFrequency = some e)
    (hjump : (150 : ℝ) < |1200 * Real.logb 2 ((r.frequency : ℝ) / (e : ℝ))|) :
    process s r now = process initState r now := by
  have hc : ¬(r.clarity < MIN_CLARITY) := by
    rw [MIN_CLARITY]; exact not_lt.mpr hclar
  rw [process, process, if_neg hc, if_neg hc, hema]
  have hr : reset s = initState := rfl
  simp only [NOTE_CHANGE_CENTS, if_pos hjump, hr]
  rfl

/-- Witness for C7 (amended): EMA at 440 Hz, incoming 880 Hz (1200 cents). -/
theorem claim_C7_jump_reset_witness :
    process { initState with emaFrequency := some 440 } ⟨880, 9 / 10⟩ 7 =
      process initState ⟨880, 9 / 10⟩ 7 := by
  have h2 : ((((880, 9 / 10) : ℚ × ℚ).1 : ℚ) : ℝ) / ((440 : ℚ) : ℝ) = 2 := by
    push_cast; norm_num
  refine claim_C7_jump_reset _ ⟨880, 9 / 10⟩ 7 440 (by norm_num) rfl ?_
  show (150 : ℝ) < |1200 * Real.logb 2 (((880 : ℚ) : ℝ) / ((440 : ℚ) : ℝ))|
  have h2 : (((880 : ℚ) : ℝ) / ((440 : ℚ) : ℝ)) = 2 := by push_cast; norm_num
  rw [h2, Real.logb_self_eq_one (by norm_num)]
  norm_num

end PitchSmoother

namespace PitchSmoother

/-- Helper: the stability spread over a buffer of five equal entries is 0. -/
theorem stabilitySpreadCents_const (f : ℚ) :
    stabilitySpreadCents [f, f, f, f, f] = 0 := by
  have hmax : listMax [f, f, f, f, f] = f := by simp [listMax]
  have hmin : listMin [f, f, f, f, f] = f := by simp [listMin]
  rw [stabilitySpreadCents, hmax, hmin]
  rcases eq_or_ne f 0 with rfl | hf
  · simp
  · rw [div_self (by exact_mod_cast hf : (f : ℝ) ≠ 0), Real.logb_one, mul_zero]

/-- Claim C1: from a fresh (or freshly reset) state, feeding the identical
confident reading (`clarity ≥ 0.85`) five times, at arbitrary timestamps,
yields nothing on the first four calls and a non-empty result on the fifth. -/
theorem claim_C1_five_calls (f c : ℚ) (h : 85 / 100 ≤ c) (t1 t2 t3 t4 t5 : ℚ) :
    ∃ out,
      (processSeq initState
          [(⟨f, c⟩, t1), (⟨f, c⟩, t2), (⟨f, c⟩, t3), (⟨f, c⟩, t4),
            (⟨f, c⟩, t5)]).2 =
        [none, none, none, none, some out] := by
  have hc : ¬((⟨f, c⟩ : PitchResult).clarity < MIN_CLARITY) := by
    rw [MIN_CLARITY]; exact not_lt.mpr h
  have hspread :
      ¬(STABILITY_SPREAD_CENTS < stabilitySpreadCents [f, f, f, f, f]) := by
    rw [stabilitySpreadCents_const, STABILITY_SPREAD_CENTS]; norm_num
  simp only [processSeq, process, hc, if_false, initState,
    STABILITY_WINDOW, MEDIAN_WINDOW, List.nil_append, List.cons_append,
    List.length_cons, List.length_nil, List.length_append]
  norm_num [hspread]

/-- Witness for C1 at frequency 440, clarity 0.9, timestamps 0..4. -/
theorem claim_C1_five_calls_witness :
    ∃ out,
      (processSeq initState
          [(⟨440, 9 / 10⟩, 0), (⟨440, 9 / 10⟩, 1), (⟨440, 9 / 10⟩, 2),
            (⟨440, 9 / 10⟩, 3), (⟨440, 9 / 10⟩, 4)]).2 =
        [none, none, none, none, some out] :=
  claim_C1_five_calls 440 (9 / 10) (by norm_num) 0 1 2 3 4

end PitchSmoother


namespace PitchSmoother

/-- Helper for C5, single call: with a current note present and a different
mapped note, the displayed pair becomes the mapped pair exactly when the same
candidate was already pending and `now - pendingSince ≥ 100`. -/
theorem applyHysteresis_change_iff (s : SmootherState) (cn : String) (co : ℤ)
    (n : String) (o : ℤ) (now : ℚ) (hcn : s.currentNote = some cn)
    (hco : s.currentOctave = some co) (hne : ¬(cn = n ∧ co = o)) :
    (applyHysteresis s n o now).2 = (n, o) ↔
      s.pendingNote = some n ∧ s.pendingOctave = some o ∧
        ∃ ts, s.pendingNoteTimestamp = some ts ∧ 100 ≤ now - ts := by
  have hpair : (cn, co) ≠ (n, o) := by
    intro hp
    exact hne ⟨congrArg Prod.fst hp, congrArg Prod.snd hp⟩
  simp only [applyHysteresis, hcn, hco, if_neg hne]
  by_cases hpn : s.pendingNote ≠ some n ∨ s.pendingOctave ≠ some o
  · rw [if_pos hpn]
    constructor
    · intro hfalse
      exact absurd hfalse hpair
    · rintro ⟨h1, h2, -⟩
      rcases hpn with hp | hp
      · exact absurd h1 hp
      · exact absurd h2 hp
  · rw [if_neg hpn]
    push_neg at hpn
    obtain ⟨hp1, hp2⟩ := hpn
    cases hts : s.pendingNoteTimestamp with
    | none =>
      simp only [hts]
      constructor
      · intro hfalse; exact absurd hfalse hpair
      · rintro ⟨-, -, ts, hcontra, -⟩; cases hcontra
    | some ts0 =>
      simp only [hts]
      by_cases htime : HYSTERESIS_MS ≤ now - ts0
      · rw [if_pos htime]
        refine iff_of_true rfl ⟨hp1, hp2, ts0, rfl, ?_⟩
        rw [HYSTERESIS_MS] at htime; exact htime
      · rw [if_neg htime]
        constructor
        · intro hfalse; exact absurd hfalse hpair
        · rintro ⟨-, -, ts, hts', hge⟩
          cases hts'
          rw [HYSTERESIS_MS] at htime
          exact absurd hge htime

/-- Helper for C5: while the pending candidate keeps arriving within 100 ms of
`pendingSince`, neither the state nor the displayed pair changes, and a final
reading of the current note ends with the current note still displayed. -/
theorem applyHysteresis_hold (A B : String) (ao bo : ℤ) (s1 : SmootherState)
    (t0 : ℚ) (hcn : s1.currentNote = some A) (hco : s1.currentOctave = some ao)
    (hpn : s1.pendingNote = some B) (hpo : s1.pendingOctave = some bo)
    (hts : s1.pendingNoteTimestamp = some t0) (hne : ¬(A = B ∧ ao = bo)) :
    ∀ B_times : List ℚ, (∀ t ∈ B_times, t - t0 < 100) → ∀ t1 : ℚ,
      (∀ p ∈ (hystSteps s1
          ((B_times.map fun t => (B, bo, t)) ++ [(A, ao, t1)])).2, p = (A, ao)) ∧
      (hystSteps s1
          ((B_times.map fun t => (B, bo, t)) ++ [(A, ao, t1)])).1.currentNote
        = some A ∧
      (hystSteps s1
          ((B_times.map fun t => (B, bo, t)) ++ [(A, ao, t1)])).1.currentOctave
        = some ao := by
  intro bt
  induction bt with
  | nil =>
    intro _ t1
    have hstep : applyHysteresis s1 A ao t1 = ({ s1 with pendingNote := none, pendingOctave := none, pendingNoteTimestamp := none }, A, ao) := by
      simp [applyHysteresis, hcn, hco]
    simp [hystSteps, hstep, hcn, hco]
  | cons t ts ih =>
    intro hlt t1
    have hstill : applyHysteresis s1 B bo t = (s1, A, ao) := by
      simp only [applyHysteresis, hcn, hco, hpn, hpo, hts]
      rw [if_neg hne]
      rw [if_neg (show ¬(some B ≠ some B ∨ some bo ≠ some bo) from by simp)]
      rw [if_neg (show ¬(HYSTERESIS_MS ≤ t - t0) from by
        rw [HYSTERESIS_MS]
        exact not_le.mpr (hlt t (List.mem_cons_self t ts)))]
    have hrest := ih (fun u hu => hlt u (List.mem_cons_of_mem t hu)) t1
    simp only [List.map_cons, List.cons_append, hystSteps, hstill]
    refine ⟨?_, hrest.2.1, hrest.2.2⟩
    intro p hp
    rcases List.mem_cons.mp hp with rfl | hp'
    · rfl
    · exact hrest.1 p hp'

/-- Claim C5: note-identity hysteresis. (a) With a current note displayed and
a different mapped note, the displayed note changes to the mapped note iff the
same candidate has been pending and `now - pendingSince ≥ 100` ms. (b) A new
note fed from a clean-pending state, re-fed only at instants less than 100 ms
past its first appearance, then followed by the old note, never changes the
displayed note. (c) A new note seen again at least 100 ms after its first
appearance is committed (displayed and adopted as current). -/
theorem claim_C5_note_hysteresis :
    (∀ (s : SmootherState) (cn : String) (co : ℤ) (n : String) (o : ℤ)
        (now : ℚ), s.currentNote = some cn → s.currentOctave = some co →
        ¬(cn = n ∧ co = o) →
        ((applyHysteresis s n o now).2 = (n, o) ↔
          s.pendingNote = some n ∧ s.pendingOctave = some o ∧
            ∃ ts, s.pendingNoteTimestamp = some ts ∧ 100 ≤ now - ts)) ∧
    (∀ (A B : String) (ao bo : ℤ) (s0 : SmootherState) (t0 : ℚ)
        (B_times : List ℚ) (t1 : ℚ), s0.currentNote = some A →
        s0.currentOctave = some ao → s0.pendingNote = none →
        ¬(A = B ∧ ao = bo) → (∀ t ∈ B_times, t - t0 < 100) →
        (∀ p ∈ (hystSteps s0
            ((B, bo, t0) :: (B_times.map fun t => (B, bo, t)) ++
              [(A, ao, t1)])).2, p = (A, ao)) ∧
        (hystSteps s0 ((B, bo, t0) :: (B_times.map fun t => (B, bo, t)) ++
            [(A, ao, t1)])).1.currentNote = some A) ∧
    (∀ (A B : String) (ao bo : ℤ) (s0 : SmootherState) (t0 t1 : ℚ),
        s0.currentNote = some A → s0.currentOctave = some ao →
        s0.pendingNote = none → ¬(A = B ∧ ao = bo) → 100 ≤ t1 - t0 →
        (applyHysteresis (applyHysteresis s0 B bo t0).1 B bo t1).2 = (B, bo) ∧
        (applyHysteresis
            (applyHysteresis s0 B bo t0).1 B bo t1).1.currentNote = some B ∧
        (applyHysteresis
            (applyHysteresis s0 B bo t0).1 B bo t1).1.currentOctave
          = some bo) := by
  refine ⟨applyHysteresis_change_iff, ?_, ?_⟩
  · intro A B ao bo s0 t0 bt t1 hcn hco hpn hne hlt
    have hfirst : applyHysteresis s0 B bo t0 = ({ s0 with pendingNote := some B, pendingOctave := some bo, pendingNoteTimestamp := some t0 }, A, ao) := by
      simp only [applyHysteresis, hcn, hco, hpn]
      rw [if_neg hne]
      rw [if_pos (Or.inl (show (none : Option String) ≠ some B from by simp))]
    have hhold := applyHysteresis_hold A B ao bo { s0 with pendingNote := some B, pendingOctave := some bo, pendingNoteTimestamp := some t0 } t0 hcn hco rfl rfl rfl hne bt hlt t1
    simp only [List.cons_append, hystSteps, hfirst]
    refine ⟨?_, hhold.2.1⟩
    intro p hp
    rcases List.mem_cons.mp hp with rfl | hp'
    · rfl
    · exact hhold.1 p hp'
  · intro A B ao bo s0 t0 t1 hcn hco hpn hne hge
    have hfirst : applyHysteresis s0 B bo t0 = ({ s0 with pendingNote := some B, pendingOctave := some bo, pendingNoteTimestamp := some t0 }, A, ao) := by
      simp only [applyHysteresis, hcn, hco, hpn]
      rw [if_neg hne]
      rw [if_pos (Or.inl (show (none : Option String) ≠ some B from by simp))]
    rw [hfirst]
    simp only [applyHysteresis, hcn, hco]
    rw [if_neg hne]
    rw [if_neg (show ¬(some B ≠ some B ∨ some bo ≠ some bo) from by simp)]
    rw [if_pos (show HYSTERESIS_MS ≤ t1 - t0 from by rw [HYSTERESIS_MS]; exact hge)]
    exact ⟨rfl, rfl, rfl⟩

end PitchSmoother

namespace PitchSmoother

/-- Witness for C5: a concrete pending commit, a concrete 60 ms hold that
reverts, and a concrete 100 ms commit. -/
theorem claim_C5_note_hysteresis_witness :
    ((applyHysteresis { initState with currentNote := some "A", currentOctave := some 2, pendingNote := some "B", pendingOctave := some 3, pendingNoteTimestamp := some 0 } "B" 3 150).2 = ("B", 3)) ∧
    (∀ p ∈ (hystSteps { initState with currentNote := some "A", currentOctave := some 2 }
        (("B", 3, 0) :: ([30, 60].map fun t => ("B", 3, t)) ++ [("A", 2, 90)])).2,
      p = ("A", 2)) ∧
    ((applyHysteresis (applyHysteresis { initState with currentNote := some "A", currentOctave := some 2 } "B" 3 0).1 "B" 3 100).2 = ("B", 3)) := by
  refine ⟨?_, ?_, ?_⟩
  · exact (claim_C5_note_hysteresis.1 _ "A" 2 "B" 3 150 rfl rfl
      (by simp)).mpr ⟨rfl, rfl, 0, rfl, by norm_num⟩
  · exact (claim_C5_note_hysteresis.2.1 "A" "B" 2 3
      { initState with currentNote := some "A", currentOctave := some 2 } 0
      [30, 60] 90 rfl rfl rfl (by simp)
      (by intro t ht; fin_cases ht <;> norm_num)).1
  · exact (claim_C5_note_hysteresis.2.2 "A" "B" 2 3
      { initState with currentNote := some "A", currentOctave := some 2 } 0 100
      rfl rfl rfl (by simp) (by norm_num)).1

end PitchSmoother

/-- Helper: concrete evaluation of the octave corrector on the period-4 frame
with an octave-doubled input estimate of 1600 Hz at 3200 Hz sampling. -/
theorem correctOctaveErrors_eval_bufPeriod4 :
    correctOctaveErrors ⟨1600, 9 / 10⟩ bufPeriod4 3200 = some ⟨800, 9 / 10⟩ := by
  norm_num [correctOctaveErrors, cumulativeMeanNormalizedDifference, diffAt,
    List.range_succ, bufPeriod4, round_eq, GUITAR_MIN_HZ, GUITAR_MAX_HZ,
    show ((4 : ℤ).toNat = 4) from rfl, show ((2 : ℤ).toNat = 2) from rfl]

/-- Counterexample to claim C2 as stated: an input estimate of 1600 Hz — far
outside [75, 1400] — is not dropped; the halving step fires first and the
corrector returns 800 Hz. -/
theorem claim_C2_counterexample :
    (1400 : ℚ) < (⟨1600, 9 / 10⟩ : PitchResult).frequency ∧
    correctOctaveErrors ⟨1600, 9 / 10⟩ bufPeriod4 3200 ≠ none := by
  refine ⟨by norm_num, ?_⟩
  rw [correctOctaveErrors_eval_bufPeriod4]
  simp

/-- Claim C2 (amended): the range filter applies to the frequency *after* the
conditional halving: (1) any input with frequency below 75 Hz or above
2800 Hz is dropped for every frame, sample rate and clarity; (2) any returned
result has frequency within [75, 1400] Hz (an input in (1400, 2800] Hz may be
halved into range rather than dropped). -/
theorem claim_C2_range_filter :
    (∀ (r : PitchResult) (buffer : List ℚ) (sampleRate : ℚ),
        r.frequency < 75 ∨ 2800 < r.frequency →
        correctOctaveErrors r buffer sampleRate = none) ∧
    (∀ (r out : PitchResult) (buffer : List ℚ) (sampleRate : ℚ),
        correctOctaveErrors r buffer sampleRate = some out →
        75 ≤ out.frequency ∧ out.frequency ≤ 1400) := by
  constructor
  · intro r buffer sampleRate h
    simp only [correctOctaveErrors, GUITAR_MIN_HZ, GUITAR_MAX_HZ]
    split
    · rw [if_pos (show r.frequency / 2 < 75 ∨ 1400 < r.frequency / 2 by
        rcases h with h | h
        · left; linarith
        · right; linarith)]
    · rw [if_pos (show r.frequency < 75 ∨ 1400 < r.frequency by
        rcases h with h | h
        · left; linarith
        · right; linarith)]
  · intro r out buffer sampleRate h
    simp only [correctOctaveErrors, GUITAR_MIN_HZ, GUITAR_MAX_HZ] at h
    split at h
    · split at h
      · exact absurd h (by simp)
      · next hno =>
        push_neg at hno
        obtain rfl : _ = out := Option.some.inj h
        exact ⟨hno.1, hno.2⟩
    · split at h
      · exact absurd h (by simp)
      · next hno =>
        push_neg at hno
        obtain rfl : _ = out := Option.some.inj h
        exact ⟨hno.1, hno.2⟩

/-- Witness for C2 (amended): a 3000 Hz input is dropped on any frame, and the
period-4 frame's halved output lies inside [75, 1400]. -/
theorem claim_C2_range_filter_witness :
    correctOctaveErrors ⟨3000, 1 / 2⟩ [] 0 = none ∧
    (75 : ℚ) ≤ (⟨800, 9 / 10⟩ : PitchResult).frequency ∧
      (⟨800, 9 / 10⟩ : PitchResult).frequency ≤ 1400 :=
  ⟨claim_C2_range_filter.1 ⟨3000, 1 / 2⟩ [] 0 (by norm_num),
   claim_C2_range_filter.2 ⟨1600, 9 / 10⟩ ⟨800, 9 / 10⟩ bufPeriod4 3200
     correctOctaveErrors_eval_bufPeriod4⟩

/-- Helper: full characterization of the local-minimum walk, for any fuel at
least `cm.length - tau` (the walk can take at most that many steps). -/
theorem walkMin_spec (cm : List ℚ) :
    ∀ (fuel tau : ℕ), cm.length - tau ≤ fuel →
      tau ≤ walkMin cm fuel tau ∧
      (∀ i, tau ≤ i → i < walkMin cm fuel tau →
        cm.getD (i + 1) 0 < cm.getD i 0) ∧
      (walkMin cm fuel tau + 1 < cm.length →
        ¬(cm.getD (walkMin cm fuel tau + 1) 0 < cm.getD (walkMin cm fuel tau) 0)) ∧
      cm.getD (walkMin cm fuel tau) 0 ≤ cm.getD tau 0 ∧
      (tau < cm.length → walkMin cm fuel tau < cm.length) := by
  intro fuel
  induction fuel with
  | zero =>
    intro tau hfuel
    simp only [walkMin]
    exact ⟨le_refl tau,
      fun i h1 h2 => absurd (lt_of_le_of_lt h1 h2) (lt_irrefl tau),
      fun h => absurd h (by omega), le_refl _, fun h => h⟩
  | succ fuel ih =>
    intro tau hfuel
    rw [walkMin]
    split
    · next hcond =>
      obtain ⟨hlt, hdec⟩ := hcond
      have hstep := ih (tau + 1) (by omega)
      refine ⟨le_trans (Nat.le_succ tau) hstep.1, ?_, hstep.2.2.1, le_trans hstep.2.2.2.1 (le_of_lt hdec), fun _ => hstep.2.2.2.2 hlt⟩
      intro i h1 h2
      rcases Nat.eq_or_lt_of_le h1 with rfl | h1'
      · exact hdec
      · exact hstep.2.1 i h1' h2
    · next hcond =>
      refine ⟨le_refl tau, fun i h1 h2 => absurd (lt_of_le_of_lt h1 h2) (lt_irrefl tau), ?_, le_refl _, fun h => h⟩
      intro hlt hdec
      exact hcond ⟨hlt, hdec⟩

/-- Helper: if no lag from `lo` on crosses the threshold, the scan returns
`none` (for every fuel). -/
theorem findTau_none (cm : List ℚ) (threshold : ℚ) :
    ∀ (fuel lo : ℕ),
      (∀ tau, lo ≤ tau → tau < cm.length → ¬(cm.getD tau 0 < threshold)) →
      findTau cm threshold fuel lo = none := by
  intro fuel
  induction fuel with
  | zero => intro lo _; rw [findTau]
  | succ fuel ih =>
    intro lo h
    rw [findTau]
    split
    · next hlo =>
      rw [if_neg (h lo (le_refl lo) hlo)]
      exact ih (lo + 1) (fun tau h1 h2 => h tau (by omega) h2)
    · rfl

/-- Helper: if `tau0` is the first lag at or after `lo` that crosses the
threshold, the scan lands on `walkMin` started at `tau0` (given enough fuel). -/
theorem findTau_some (cm : List ℚ) (threshold : ℚ) :
    ∀ (fuel lo tau0 : ℕ), lo ≤ tau0 → tau0 < cm.length →
      cm.getD tau0 0 < threshold →
      (∀ tau, lo ≤ tau → tau < tau0 → ¬(cm.getD tau 0 < threshold)) →
      tau0 - lo < fuel →
      findTau cm threshold fuel lo = some (walkMin cm cm.length tau0) := by
  intro fuel
  induction fuel with
  | zero => intro lo tau0 _ _ _ _ hfuel; omega
  | succ fuel ih =>
    intro lo tau0 hle hlen hcross hfirst hfuel
    rw [findTau]
    rw [if_pos (lt_of_le_of_lt hle hlen)]
    rcases Nat.eq_or_lt_of_le hle with rfl | hlt
    · rw [if_pos hcross]
    · rw [if_neg (hfirst lo (le_refl lo) hlt)]
      exact ih (lo + 1) tau0 hlt hlen hcross
        (fun tau h1 h2 => hfirst tau (by omega) h2) (by omega)

/-- Helper: whatever lag the scan returns has CMND strictly below the
threshold (the walk only ever descends). -/
theorem findTau_clarity (cm : List ℚ) (threshold : ℚ) :
    ∀ (fuel lo w : ℕ), findTau cm threshold fuel lo = some w →
      cm.getD w 0 < threshold := by
  intro fuel
  induction fuel with
  | zero => intro lo w h; rw [findTau] at h; cases h
  | succ fuel ih =>
    intro lo w h
    rw [findTau] at h
    split at h
    · next hlo =>
      by_cases hcross : cm.getD lo 0 < threshold
      · rw [if_pos hcross] at h
        obtain rfl : walkMin cm cm.length lo = w := Option.some.inj h
        exact lt_of_le_of_lt
          ((walkMin_spec cm cm.length lo (by omega)).2.2.2.1) hcross
      · rw [if_neg hcross] at h
        exact ih (lo + 1) w h
    · cases h

/-- Helper: the interpolated lag never moves by more than one unit. -/
theorem parabolicInterpolation_bounds (cm : List ℚ) (tau : ℕ) :
    (tau : ℚ) - 1 ≤ parabolicInterpolation cm tau ∧
      parabolicInterpolation cm tau ≤ (tau : ℚ) + 1 := by
  simp only [parabolicInterpolation]
  split
  · constructor <;> linarith
  · split
    · constructor <;> linarith
    · next hno =>
      rw [not_lt] at hno
      rw [abs_le] at hno
      constructor <;> linarith

/-- Helper: `detectPitch` written through `cmndOf`. -/
theorem detectPitch_eq (buffer : List ℚ) (sampleRate threshold : ℚ) :
    detectPitch buffer sampleRate threshold =
      match findTau (cmndOf buffer) threshold (cmndOf buffer).length 2 with
      | none => none
      | some tauEstimate =>
        some { frequency :=
                 sampleRate / parabolicInterpolation (cmndOf buffer) tauEstimate
               clarity := 1 - (cmndOf buffer).getD tauEstimate 0 } := rfl

/-- Claim C3: whenever the threshold scan selects a lag `tauE`, the returned
result is exactly `frequency = sampleRate / interpolatedLag` and
`clarity = 1 - cmnd[tauE]`, where the interpolated lag differs from `tauE` by
at most one lag unit (so it lies in `[tauE - 1, tauE + 1]`). -/
theorem claim_C3_interpolated_lag (buffer : List ℚ) (sampleRate threshold : ℚ)
    (tauE : ℕ)
    (h : findTau (cmndOf buffer) threshold (cmndOf buffer).length 2 = some tauE) :
    detectPitch buffer sampleRate threshold =
      some { frequency := sampleRate / parabolicInterpolation (cmndOf buffer) tauE
             clarity := 1 - (cmndOf buffer).getD tauE 0 } ∧
    (tauE : ℚ) - 1 ≤ parabolicInterpolation (cmndOf buffer) tauE ∧
    parabolicInterpolation (cmndOf buffer) tauE ≤ (tauE : ℚ) + 1 := by
  refine ⟨?_, (parabolicInterpolation_bounds (cmndOf buffer) tauE).1,
    (parabolicInterpolation_bounds (cmndOf buffer) tauE).2⟩
  rw [detectPitch_eq, h]

/-- Claim C8: the YIN absolute-threshold step. (1) If no lag in
`[2, halfLen)` has CMND below the threshold, `detectPitch` returns nothing.
(2) Otherwise, starting from the first crossing `tau0`, the scan walks
forward while the CMND strictly decreases, stops at the resulting local
minimum `tauE`, and the frame's result is computed at `tauE`. -/
theorem claim_C8_absolute_threshold (buffer : List ℚ)
    (sampleRate threshold : ℚ) :
    ((∀ tau, 2 ≤ tau → tau < (cmndOf buffer).length →
        ¬((cmndOf buffer).getD tau 0 < threshold)) →
      detectPitch buffer sampleRate threshold = none) ∧
    (∀ tau0, 2 ≤ tau0 → tau0 < (cmndOf buffer).length →
      (cmndOf buffer).getD tau0 0 < threshold →
      (∀ tau, 2 ≤ tau → tau < tau0 → ¬((cmndOf buffer).getD tau 0 < threshold)) →
      ∃ tauE, tau0 ≤ tauE ∧ tauE < (cmndOf buffer).length ∧
        (∀ i, tau0 ≤ i → i < tauE →
          (cmndOf buffer).getD (i + 1) 0 < (cmndOf buffer).getD i 0) ∧
        (tauE + 1 < (cmndOf buffer).length →
          (cmndOf buffer).getD tauE 0 ≤ (cmndOf buffer).getD (tauE + 1) 0) ∧
        detectPitch buffer sampleRate threshold =
          some { frequency :=
                   sampleRate / parabolicInterpolation (cmndOf buffer) tauE
                 clarity := 1 - (cmndOf buffer).getD tauE 0 }) := by
  constructor
  · intro h
    rw [detectPitch_eq, findTau_none (cmndOf buffer) threshold
      (cmndOf buffer).length 2 h]
  · intro tau0 h2 hlen hcross hfirst
    have hw := walkMin_spec (cmndOf buffer) (cmndOf buffer).length tau0 (by omega)
    refine ⟨walkMin (cmndOf buffer) (cmndOf buffer).length tau0, hw.1,
      hw.2.2.2.2 hlen, hw.2.1, fun hnext => not_lt.mp (hw.2.2.1 hnext), ?_⟩
    rw [detectPitch_eq, findTau_some (cmndOf buffer) threshold
      (cmndOf buffer).length 2 tau0 h2 hlen hcross hfirst (by omega)]

/-- Claim C10 (implicit): any non-null `detectPitch` result has clarity
strictly greater than `1 - threshold`, because the selected lag's CMND is
strictly below the threshold and the local-minimum walk never ascends. -/
theorem claim_C10_clarity_gt (buffer : List ℚ) (sampleRate threshold : ℚ)
    (r : PitchResult) (h : detectPitch buffer sampleRate threshold = some r) :
    1 - threshold < r.clarity := by
  rw [detectPitch_eq] at h
  cases hf : findTau (cmndOf buffer) threshold (cmndOf buffer).length 2 with
  | none => rw [hf] at h; cases h
  | some w =>
    rw [hf] at h
    obtain rfl : _ = r := Option.some.inj h
    have hcl := findTau_clarity (cmndOf buffer) threshold
      (cmndOf buffer).length 2 w hf
    show 1 - threshold < 1 - (cmndOf buffer).getD w 0
    linarith

/-- Helper: the CMND array of the period-2 frame. -/
theorem cmndOf_bufPeriod2 : cmndOf bufPeriod2 = [1, 1, 0, 3 / 2] := by
  norm_num [cmndOf, cumulativeMeanNormalizedDifference, diffAt,
    List.range_succ, bufPeriod2]

/-- Helper: the CMND array of the aperiodic frame. -/
theorem cmndOf_bufSpike : cmndOf bufSpike = [1, 1, 1, 1] := by
  norm_num [cmndOf, cumulativeMeanNormalizedDifference, diffAt,
    List.range_succ, bufSpike]

/-- Helper: the scan on the period-2 frame selects lag 2. -/
theorem findTau_bufPeriod2 :
    findTau (cmndOf bufPeriod2) (15 / 100) (cmndOf bufPeriod2).length 2
      = some 2 := by
  rw [cmndOf_bufPeriod2]
  norm_num [findTau, walkMin]

/-- Witness for C3 on the period-2 frame (selected lag 2). -/
theorem claim_C3_interpolated_lag_witness :
    detectPitch bufPeriod2 48000 (15 / 100) =
      some { frequency := 48000 / parabolicInterpolation (cmndOf bufPeriod2) 2
             clarity := 1 - (cmndOf bufPeriod2).getD 2 0 } ∧
    ((2 : ℕ) : ℚ) - 1 ≤ parabolicInterpolation (cmndOf bufPeriod2) 2 ∧
    parabolicInterpolation (cmndOf bufPeriod2) 2 ≤ ((2 : ℕ) : ℚ) + 1 :=
  claim_C3_interpolated_lag bufPeriod2 48000 (15 / 100) 2 findTau_bufPeriod2

/-- Witness for C8: the aperiodic frame yields nothing; the period-2 frame
crosses first at lag 2 and yields a result computed at a local minimum. -/
theorem claim_C8_absolute_threshold_witness :
    detectPitch bufSpike 48000 (15 / 100) = none ∧
    (∃ tauE, 2 ≤ tauE ∧ tauE < (cmndOf bufPeriod2).length ∧
      (∀ i, 2 ≤ i → i < tauE →
        (cmndOf bufPeriod2).getD (i + 1) 0 < (cmndOf bufPeriod2).getD i 0) ∧
      (tauE + 1 < (cmndOf bufPeriod2).length →
        (cmndOf bufPeriod2).getD tauE 0 ≤ (cmndOf bufPeriod2).getD (tauE + 1) 0) ∧
      detectPitch bufPeriod2 48000 (15 / 100) =
        some { frequency :=
                 48000 / parabolicInterpolation (cmndOf bufPeriod2) tauE
               clarity := 1 - (cmndOf bufPeriod2).getD tauE 0 }) := by
  constructor
  · exact (claim_C8_absolute_threshold bufSpike 48000 (15 / 100)).1 (by
      intro tau h2 h4
      rw [cmndOf_bufSpike] at h4 ⊢
      simp only [List.length_cons, List.length_nil] at h4
      interval_cases tau <;> norm_num)
  · exact (claim_C8_absolute_threshold bufPeriod2 48000 (15 / 100)).2 2
      (le_refl 2) (by rw [cmndOf_bufPeriod2]; norm_num)
      (by rw [cmndOf_bufPeriod2]; norm_num)
      (fun tau ha hb => absurd (lt_of_le_of_lt ha hb) (lt_irrefl 2))

/-- Witness for C10 on the period-2 frame. -/
theorem claim_C10_clarity_gt_witness :
    ∃ r, detectPitch bufPeriod2 48000 (15 / 100) = some r ∧
      1 - (15 / 100 : ℚ) < r.clarity := by
  have heval : detectPitch bufPeriod2 48000 (15 / 100) =
      some ⟨480000 / 19, 1⟩ := by
    norm_num [detectPitch, cumulativeMeanNormalizedDifference, diffAt,
      List.range_succ, bufPeriod2, findTau, walkMin, parabolicInterpolation,
      abs_of_nonneg]
  exact ⟨⟨480000 / 19, 1⟩, heval,
    claim_C10_clarity_gt bufPeriod2 48000 (15 / 100) ⟨480000 / 19, 1⟩ heval⟩

/-- Helper: a nonzero rational whose 24th power is an integer power of two
forces that exponent to be a multiple of 24 (2-adic valuation count). -/
theorem dvd_of_rat_pow24_eq_two_zpow {q : ℚ} (hq : q ≠ 0) {m : ℤ}
    (h : q ^ (24 : ℕ) = (2 : ℚ) ^ m) : (24 : ℤ) ∣ m := by
  haveI : Fact (Nat.Prime 2) := ⟨Nat.prime_two⟩
  have hself : padicValRat 2 (2 : ℚ) = 1 := by
    have h2 := padicValRat.self (p := 2) (by norm_num)
    simpa using h2
  have hpow : padicValRat 2 (q ^ (24 : ℕ)) = 24 * padicValRat 2 q :=
    padicValRat.pow hq
  have hzpow : padicValRat 2 ((2 : ℚ) ^ m) = m := by
    rcases le_or_lt 0 m with hm | hm
    · lift m to ℕ using hm
      rw [zpow_natCast, padicValRat.pow (two_ne_zero), hself, mul_one]
    · have hm' : m = -((-m).toNat : ℤ) := by omega
      rw [hm', zpow_neg, zpow_natCast, padicValRat.inv,
        padicValRat.pow (two_ne_zero), hself, mul_one]
  rw [h, hzpow] at hpow
  exact ⟨padicValRat 2 q, hpow⟩

/-- Helper: `midiFloat hz + 1/2` is never an integer for rational `hz`:
otherwise `|hz|/440` would be `2 ^ (odd/24)`, whose 24th power is an odd
power of two — impossible for a rational. -/
theorem midiFloat_add_half_ne_int (hz : ℚ) (k : ℤ) :
    midiFloat hz + 1 / 2 ≠ (k : ℝ) := by
  intro hhalf
  rw [midiFloat, show ((A4_FREQUENCY : ℚ) : ℝ) = 440 from by
      norm_num [A4_FREQUENCY],
    show ((A4_MIDI : ℤ) : ℝ) = 69 from by norm_num [A4_MIDI]] at hhalf
  rcases eq_or_ne hz 0 with rfl | hne
  · rw [show ((0 : ℚ) : ℝ) / 440 = 0 from by norm_num, Real.logb_zero] at hhalf
    have h2k : (2 * k : ℤ) = 139 := by
      have hr : (2 * k : ℝ) = 139 := by linarith
      exact_mod_cast hr
    omega
  · set q : ℚ := |hz / 440| with hqdef
    have hq0 : 0 < q := by
      rw [hqdef]
      exact abs_pos.mpr (div_ne_zero hne (by norm_num))
    have hcast : ((q : ℚ) : ℝ) = |((hz : ℚ) : ℝ) / 440| := by
      rw [hqdef]
      push_cast
      norm_num
    have hL : Real.logb 2 ((q : ℚ) : ℝ) = ((2 * k - 139 : ℤ) : ℝ) / 24 := by
      rw [hcast, Real.logb_abs]
      push_cast
      linarith
    have hrpow : ((q : ℚ) : ℝ) = (2 : ℝ) ^ (((2 * k - 139 : ℤ) : ℝ) / 24) := by
      rw [← hL, Real.rpow_logb (by norm_num) (by norm_num)
        (by exact_mod_cast hq0)]
    have h24 : ((q : ℚ) : ℝ) ^ (24 : ℕ) =
        (2 : ℝ) ^ ((2 * k - 139 : ℤ) : ℝ) := by
      rw [hrpow, ← Real.rpow_natCast
        ((2 : ℝ) ^ (((2 * k - 139 : ℤ) : ℝ) / 24)) 24,
        ← Real.rpow_mul (by norm_num)]
      congr 1
      push_cast
      ring
    have hzr : (2 : ℝ) ^ ((2 * k - 139 : ℤ) : ℝ) =
        (((2 : ℚ) ^ (2 * k - 139 : ℤ) : ℚ) : ℝ) := by
      rw [Real.rpow_intCast]
      push_cast
      norm_num
    have hqq : q ^ (24 : ℕ) = (2 : ℚ) ^ (2 * k - 139 : ℤ) := by
      have hfinal : ((q ^ (24 : ℕ) : ℚ) : ℝ) =
          (((2 : ℚ) ^ (2 * k - 139 : ℤ) : ℚ) : ℝ) := by
        push_cast
        rw [h24, hzr]
        push_cast
        norm_num
      exact_mod_cast hfinal
    have hdvd := dvd_of_rat_pow24_eq_two_zpow (ne_of_gt hq0) hqq
    omega

/-- Helper: for every rational `hz`, the mapped cents value lies in
`(-50, 50)` (so in particular in `(-50, 50]`): the rounding residue is in
`[-1/2, 1/2)` and the `-1/2` endpoint would need `midiFloat + 1/2 ∈ ℤ`. -/
theorem frequencyToNote_cents_bounds (hz : ℚ) :
    -50 < (frequencyToNote hz).cents ∧ (frequencyToNote hz).cents < 50 := by
  have hcents : (frequencyToNote hz).cents =
      (midiFloat hz - ((round (midiFloat hz) : ℤ) : ℝ)) * 100 := rfl
  set x := midiFloat hz with hx
  have hupper : ((round x : ℤ) : ℝ) > x + 1 / 2 - 1 := by
    rw [round_eq]
    have h := Int.lt_floor_add_one (x + 1 / 2)
    push_cast at h ⊢
    linarith
  have hlow : ((round x : ℤ) : ℝ) ≤ x + 1 / 2 := by
    rw [round_eq]
    have h := Int.floor_le (x + 1 / 2)
    push_cast at h ⊢
    linarith
  have hstrict : ((round x : ℤ) : ℝ) < x + 1 / 2 := by
    rcases lt_or_eq_of_le hlow with h | h
    · exact h
    · exact absurd h.symm (midiFloat_add_half_ne_int hz (round x))
  rw [hcents]
  constructor <;> nlinarith [hupper, hstrict]

/-- Helper: evaluation of the fifth accumulating call of the smoother on a
constant 440 Hz stream: the call emits a result. -/
theorem process_emits_on_full_buffer :
    ∃ s' out, PitchSmoother.process
      { PitchSmoother.initState with stabilityBuffer := [440, 440, 440, 440] }
      ⟨440, 9 / 10⟩ 0 = (s', some out) := by
  have hspread : ¬(STABILITY_SPREAD_CENTS <
      PitchSmoother.stabilitySpreadCents [440, 440, 440, 440, 440]) := by
    rw [PitchSmoother.stabilitySpreadCents_const, STABILITY_SPREAD_CENTS]
    norm_num
  simp only [PitchSmoother.process, PitchSmoother.initState, STABILITY_WINDOW,
    MEDIAN_WINDOW, List.nil_append, List.cons_append, List.length_cons,
    List.length_nil, List.length_append]
  norm_num [MIN_CLARITY, hspread]

/-- Claim C4: for every positive frequency, `frequencyToNote` returns cents in
`(-50, 50]` (with `cents = (midi - round midi) · 100`,
`midi = 12·log2(hz/440) + 69`); consequently every non-empty `SmoothedResult`
the stabilizer produces has its cents field in `(-50, 50]`. -/
theorem claim_C4_cents_range :
    (∀ hz : ℚ, 0 < hz →
      -50 < (frequencyToNote hz).cents ∧ (frequencyToNote hz).cents ≤ 50) ∧
    (∀ (s : SmootherState) (r : PitchResult) (now : ℚ) (s' : SmootherState)
        (out : SmoothedResult), PitchSmoother.process s r now = (s', some out) →
      -50 < out.cents ∧ out.cents ≤ 50) := by
  constructor
  · intro hz _
    have h := frequencyToNote_cents_bounds hz
    exact ⟨h.1, le_of_lt h.2⟩
  · intro s r now s' out h
    simp only [PitchSmoother.process] at h
    split_ifs at h
    all_goals
      have hout := congrArg Prod.snd h
      simp only at hout
    all_goals
      first
      | (have hrec := Option.some.inj hout
         subst hrec
         exact ⟨(frequencyToNote_cents_bounds _).1,
           le_of_lt (frequencyToNote_cents_bounds _).2⟩)
      | exact absurd hout (by simp)

/-- Witness for C4: the cents bound at 440 Hz, and at the concrete smoother
call that emits a result. -/
theorem claim_C4_cents_range_witness :
    (-50 < (frequencyToNote 440).cents ∧ (frequencyToNote 440).cents ≤ 50) ∧
    ∃ s' out, PitchSmoother.process
        { PitchSmoother.initState with stabilityBuffer := [440, 440, 440, 440] }
        ⟨440, 9 / 10⟩ 0 = (s', some out) ∧
      -50 < out.cents ∧ out.cents ≤ 50 := by
  obtain ⟨s', out, heq⟩ := process_emits_on_full_buffer
  exact ⟨claim_C4_cents_range.1 440 (by norm_num),
    s', out, heq, claim_C4_cents_range.2 _ _ _ _ _ heq⟩
